import Mathlib

/-!
Verification of the Merlin controller daemon (swarmpool repository).

The Python sources under `src/merlin/merlin/` are shallowly embedded below:

* JSON documents (Python dicts produced by `json.loads`) become the `Json`
  inductive; a top-level document is an association list `Dict`.
* Machine floats of the settlement arithmetic are modelled as exact
  rationals `ℚ`; the spec itself states the settlement identities only up
  to a `1e-9` tolerance because of this.
* `keccak` (external library `eth_utils.keccak`) and the secp256k1 signer
  (`eth_account`) are opaque to the repository code, so they are carried
  as explicit function parameters.
* Python code that can raise an exception is embedded with `Option` or
  `Except String` results; the string names the Python exception class.
-/

namespace Merlin

/-- JSON values as produced by `json.loads` (dicts keep insertion order,
modelled as association lists). -/
inductive Json where
  | null : Json
  | bool (b : Bool) : Json
  | num (q : ℚ) : Json
  | str (s : String) : Json
  | arr (items : List Json) : Json
  | obj (fields : List (String × Json)) : Json

mutual

/-- Structural equality of JSON values (Python `==` restricted to
same-type comparisons, which is all the repository performs on documents;
the numeric cross-type equalities `True == 1`, `1 == 1.0` hold in Python
but never arise: the only document comparison is `proof_id` membership in
a set of strings). -/
def Json.beq : Json → Json → Bool
  | .null, .null => true
  | .bool a, .bool b => a == b
  | .num a, .num b => a == b
  | .str a, .str b => a == b
  | .arr a, .arr b => jsonListBeq a b
  | .obj a, .obj b => jsonFieldsBeq a b
  | _, _ => false

def jsonListBeq : List Json → List Json → Bool
  | [], [] => true
  | a :: as, b :: bs => Json.beq a b && jsonListBeq as bs
  | _, _ => false

def jsonFieldsBeq : List (String × Json) → List (String × Json) → Bool
  | [], [] => true
  | (k, v) :: as, (k', v') :: bs => k == k' && Json.beq v v' && jsonFieldsBeq as bs
  | _, _ => false

end

instance : BEq Json := ⟨Json.beq⟩

/-- A top-level JSON document (a Python dict). -/
abbrev Dict := List (String × Json)

/-- Python `d.get(k)`: the first binding of `k`, if any. -/
def dictGet (d : Dict) (k : String) : Option Json :=
  (d.find? (fun p => p.1 == k)).map (fun p => p.2)

/-- Python `d.get(k, v)`. -/
def dictGetD (d : Dict) (k : String) (v : Json) : Json :=
  (dictGet d k).getD v

/-- Python `{**d, k: v}`: replace the value in place if the key exists
(keys of a Python dict are unique), else append the binding at the end. -/
def dictSet (d : Dict) (k : String) (v : Json) : Dict :=
  if (d.find? (fun p => p.1 == k)).isSome then
    d.map (fun p => if p.1 == k then (k, v) else p)
  else
    d ++ [(k, v)]

/-- Iterated `dictSet`, for `{**d, k₁: v₁, k₂: v₂, …}` overlays. -/
def dictSets (d : Dict) : List (String × Json) → Dict
  | [] => d
  | (k, v) :: rest => dictSets (dictSet d k v) rest

/-- Python `{k: v for k, v in d.items() if k != "sig"}`. -/
def removeSig (d : Dict) : Dict :=
  d.filter (fun p => p.1 ≠ "sig")

/-- Python truthiness of a JSON value (`bool(x)`). -/
def Json.truthy : Json → Bool
  | .null => false
  | .bool b => b
  | .num q => q ≠ 0
  | .str s => s ≠ ""
  | .arr l => !l.isEmpty
  | .obj l => !l.isEmpty

/-- Truthiness of `d.get(k)` where a missing key yields `None` (falsy). -/
def truthyOpt : Option Json → Bool
  | none => false
  | some v => v.truthy

/-- Python `x == "s"` for a JSON value `x` and a string literal: only a
string compares equal to a string. -/
def jsonIsStr (v : Option Json) (s : String) : Bool :=
  match v with
  | some (.str t) => t == s
  | _ => false

/-- Python `isinstance(x, (int, float))`; note that `bool` is a subclass
of `int` in Python, so booleans count as numbers. -/
def isNumberJ : Json → Bool
  | .num _ => true
  | .bool _ => true
  | _ => false

/-- Numeric value of a Python number (`True` counts as `1`, `False` as `0`). -/
def numValJ : Json → ℚ
  | .num q => q
  | .bool b => if b then 1 else 0
  | _ => 0

/-! ## Hex encoding and decoding (`bytes.fromhex`, `bytes.hex`) -/

/-- A byte value (kept as `Nat`; Python guarantees `0 ≤ b < 256`). -/
abbrev ByteL := List Nat

/-- Value of one hexadecimal digit, if the character is one. -/
def hexDigitVal : Char → Option Nat
  | c =>
    if '0' ≤ c ∧ c ≤ '9' then some (c.toNat - '0'.toNat)
    else if 'a' ≤ c ∧ c ≤ 'f' then some (c.toNat - 'a'.toNat + 10)
    else if 'A' ≤ c ∧ c ≤ 'F' then some (c.toNat - 'A'.toNat + 10)
    else none

/-- Decode a list of characters as hex byte pairs; `none` models the
`ValueError` that Python's `bytes.fromhex` raises on a non-hex digit or an
odd-length string.  (Python additionally permits ASCII whitespace between
byte pairs; no repository input contains whitespace, so that relaxation is
not modelled.) -/
def decodeHexPairs : List Char → Option ByteL
  | [] => some []
  | [_] => none
  | c₁ :: c₂ :: rest => do
    let h ← hexDigitVal c₁
    let l ← hexDigitVal c₂
    let tail ← decodeHexPairs rest
    pure ((h * 16 + l) :: tail)

/-- Python `bytes.fromhex(s)` (strict form, see `decodeHexPairs`). -/
def bytesFromHex (s : String) : Option ByteL :=
  decodeHexPairs s.toList

/-- Python `s.startswith("0x")` (list form, kernel-reducible). -/
def startsWith0x (s : String) : Bool :=
  match s.toList with
  | '0' :: 'x' :: _ => true
  | _ => false

/-- Python `s.endswith(".eth")` (list form, kernel-reducible). -/
def endsWithEth (s : String) : Bool :=
  match s.toList.reverse with
  | 'h' :: 't' :: 'e' :: '.' :: _ => true
  | _ => false

/-- Lowercase hex digit for a value below 16. -/
def hexDigitChar (n : Nat) : Char :=
  if n < 10 then Char.ofNat ('0'.toNat + n)
  else Char.ofNat ('a'.toNat + (n - 10))

/-- Python `bytes.hex()`: two lowercase hex digits per byte (byte values
are below 256 in Python; the reduction `% 256` just makes this total). -/
def toHexStr (bs : ByteL) : String :=
  String.mk (bs.foldr (fun b acc =>
    hexDigitChar (b % 256 / 16) :: hexDigitChar (b % 256 % 16) :: acc) [])

/-- The UTF-8 bytes of a string (Python `s.encode("utf-8")`), via the UTF-8
encoder of each character. -/
def strUtf8 (s : String) : ByteL :=
  (s.toList.flatMap String.utf8EncodeChar).map (fun b => b.toNat)

/-! ## Merkle root (`crypto.compute_merkle_root`)

The hash `eth_utils.keccak` is an external library function; it is carried
as the parameter `K : ByteL → ByteL`. -/

/-- Lexicographic code-point comparison of character lists: the order in
which Python compares `str` values. -/
def listLe : List Char → List Char → Bool
  | [], _ => true
  | _ :: _, [] => false
  | a :: as, b :: bs =>
    if a.toNat < b.toNat then true
    else if b.toNat < a.toNat then false
    else listLe as bs

/-- Python `a <= b` on strings. -/
def strLeb (a b : String) : Bool :=
  listLe a.toList b.toList

/-- Insert into a sorted list, before the first element not below `x`. -/
def insertSortedBy {α : Type} (le : α → α → Bool) (x : α) : List α → List α
  | [] => [x]
  | y :: t => if le x y then x :: y :: t else y :: insertSortedBy le x t

/-- Insertion sort with a boolean comparator.  Python `sorted` is a
stable comparison sort; over the total orders used here the sorted
permutation is unique, so any comparison sort matches it. -/
def sortBy {α : Type} (le : α → α → Bool) : List α → List α
  | [] => []
  | x :: t => insertSortedBy le x (sortBy le t)

/-- Python `sorted(items)` on strings: lexicographic by code point. -/
def sortStrings (items : List String) : List String :=
  sortBy strLeb items

/-- Leaf digest of one item: hex bytes of the remainder when the item is
`0x`-prefixed (where `bytes.fromhex` may fail), else keccak of the UTF-8
bytes.  Lines 119-124 of `crypto.py`. -/
def leafOf (K : ByteL → ByteL) (item : String) : Option ByteL :=
  match item.toList with
  | '0' :: 'x' :: rest => decodeHexPairs rest
  | _ => some (K (strUtf8 item))

/-- One pass of the pairing loop body: concatenate consecutive pairs and
hash (the input has even length when called). -/
def hashPairs (K : ByteL → ByteL) : List ByteL → List ByteL
  | [] => []
  | [_] => []
  | a :: b :: rest => K (a ++ b) :: hashPairs K rest

/-- One iteration of the `while` loop: duplicate the last digest when the
level has odd length, then pair-and-hash. -/
def buildLevel (K : ByteL → ByteL) (hs : List ByteL) : List ByteL :=
  hashPairs K (if hs.length % 2 = 1 then hs ++ [hs.getLastD []] else hs)

/-- The `while len(hashes) > 1` loop of `compute_merkle_root`, with an
explicit fuel argument so that the recursion is structural: one level pass
always shortens a level of length at least two, so fuel equal to the
initial length never runs out (the fuel-exhausted branch is unreachable). -/
def buildTreeFuel (K : ByteL → ByteL) : Nat → List ByteL → ByteL
  | _, [] => []
  | _, [d] => d
  | 0, _ :: _ :: _ => []
  | fuel + 1, d₁ :: d₂ :: rest => buildTreeFuel K fuel (buildLevel K (d₁ :: d₂ :: rest))

/-- The `while len(hashes) > 1` loop of `compute_merkle_root`. -/
def buildTree (K : ByteL → ByteL) (hs : List ByteL) : ByteL :=
  buildTreeFuel K hs.length hs

/-- The all-zero root `"0x" + "0" * 64`. -/
def zeros64 : String :=
  "0x" ++ String.mk (List.replicate 64 '0')

/-- Model of `crypto.compute_merkle_root` (lines 102-137): sort, hash leaves, build
the binary tree.  `none` models the uncaught `ValueError` raised by
`bytes.fromhex` on an invalid `0x`-prefixed item. -/
def compute_merkle_rootE (K : ByteL → ByteL) (items : List String) : Option String :=
  if items.isEmpty then some zeros64
  else do
    let hashes ← (sortStrings items).mapM (leafOf K)
    pure ("0x" ++ toHexStr (buildTree K hashes))

/-! ## Python `float(str)` and the reward extraction -/

/-- Decimal digit test. -/
def isDigitC (c : Char) : Bool := '0' ≤ c && c ≤ '9'

/-- Numeric value of a digit string. -/
def digitsVal (cs : List Char) : Nat :=
  cs.foldl (fun a c => a * 10 + (c.toNat - '0'.toNat)) 0

/-- Python `float(s)` on a string, restricted to the grammar
`[+|-] digits [. digits]` with at least one digit (the exponent form,
`inf`/`nan`, surrounding whitespace and `_` separators of the full Python
grammar are not exercised by this repository and are not modelled).
`none` models the `ValueError` that the callers catch. -/
def parseDecimal (s : String) : Option ℚ :=
  let cs := s.toList
  let signAndRest : ℚ × List Char :=
    match cs with
    | '-' :: rest => (-1, rest)
    | '+' :: rest => (1, rest)
    | _ => (1, cs)
  let sgn := signAndRest.1
  let body := signAndRest.2
  let intPart := body.takeWhile isDigitC
  let rest := body.dropWhile isDigitC
  match rest with
  | [] => if intPart.isEmpty then none else some (sgn * digitsVal intPart)
  | '.' :: frac =>
    if frac.all isDigitC ∧ ¬(intPart.isEmpty ∧ frac.isEmpty) then
      some (sgn * ((digitsVal intPart : ℚ) + (digitsVal frac : ℚ) / (10 ^ frac.length)))
    else none
  | _ => none

/-- Python `float(x)` on a JSON value: numbers are their value, booleans
count as `1`/`0`, strings are parsed; `none` models the `ValueError` or
`TypeError` that the caller catches. -/
def pyFloat : Json → Option ℚ
  | .num q => some q
  | .bool b => some (if b then 1 else 0)
  | .str s => parseDecimal s
  | _ => none

/-! ## Configuration (`config.MerlinConfig`) — the fields the core uses -/

structure MConfig where
  identity : String := "merlin.swarmos.eth"
  pool : String := "swarmpool.eth"
  epoch_duration_seconds : Int := 3600
  provider_share : ℚ := 3/4
  network_ops_share : ℚ := 1/4

/-! ## Settlements (`epoch.EpochManager._compute_settlements`) -/

/-- One entry of the in-memory accumulator `current_proofs`:
`{"proof": proof, "job": job, "processed_at": ...}`. -/
structure AccItem where
  proof : Dict
  job : Option Dict
  processed_at : Int

/-- Reward of one accumulator item (lines 262-268 of `epoch.py`): default
`0.10`; if the job is a truthy dict with a `payment` key, `float` of
`payment.get("amount", "0.10")`, falling back to `0.10` on a caught
`ValueError`/`TypeError`.  A non-dict `payment` value raises an uncaught
`AttributeError` (`.get` on a non-dict), modelled by `.error`. -/
def rewardOfE : Option Dict → Except String ℚ
  | none => .ok (1/10)
  | some j =>
    if j.isEmpty then .ok (1/10)
    else match dictGet j "payment" with
      | none => .ok (1/10)
      | some (.obj p) =>
        .ok ((pyFloat (dictGetD p "amount" (.str "0.10"))).getD (1/10))
      | some _ => .error "AttributeError"

/-- The provider name of a proof, `proof.get("provider", "unknown")`.
Accumulator entries have passed schema validation, so the value is a
string; the default covers the impossible non-string case as well. -/
def providerNameOf (p : Dict) : String :=
  match dictGetD p "provider" (.str "unknown") with
  | .str s => s
  | _ => "unknown"

/-- Model of `provider_earnings[provider] += v` on a `defaultdict(float)`,
modelled on an association list with unique keys. -/
def addEarning : List (String × ℚ) → String → ℚ → List (String × ℚ)
  | [], k, v => [(k, v)]
  | (k', v') :: t, k, v =>
    if k' = k then (k', v' + v) :: t else (k', v') :: addEarning t k v

/-- The settlement dictionary returned at seal (machine floats modelled
as exact rationals, see the file header). -/
structure Settlements where
  total_volume : ℚ
  provider_pool : ℚ
  network_ops : ℚ
  providers : List (String × ℚ)
  provider_count : Nat
deriving DecidableEq

/-- The accumulation loop of `_compute_settlements` (lines 258-275). -/
def settleFold (cfg : MConfig) :
    List AccItem → ℚ → List (String × ℚ) → Except String (ℚ × List (String × ℚ))
  | [], tv, earn => .ok (tv, earn)
  | item :: rest, tv, earn => do
    let r ← rewardOfE item.job
    settleFold cfg rest (tv + r)
      (addEarning earn (providerNameOf item.proof) (r * cfg.provider_share))

/-- Model of `epoch.EpochManager._compute_settlements` (lines 247-283). -/
def computeSettlementsE (cfg : MConfig) (items : List AccItem) :
    Except String Settlements := do
  let (tv, earn) ← settleFold cfg items 0 []
  .ok { total_volume := tv
        provider_pool := tv * cfg.provider_share
        network_ops := tv * cfg.network_ops_share
        providers := earn
        provider_count := earn.length }

/-! ## Schema validation (`schemas.validate_proof`) -/

/-- ASCII letter or digit, the character class of the CID pattern. -/
def isAlnumAscii (c : Char) : Bool :=
  ('a' ≤ c && c ≤ 'z') || ('A' ≤ c && c ≤ 'Z') || ('0' ≤ c && c ≤ '9')

/-- Model of `re.match` of the pattern `(bafy|Qm)[a-zA-Z0-9]+` (anchored at the
start only, so one matching character after the prefix suffices). -/
def matchCid (s : String) : Bool :=
  (match s.toList with
   | 'b' :: 'a' :: 'f' :: 'y' :: c :: _ => isAlnumAscii c
   | _ => false) ||
  (match s.toList with
   | 'Q' :: 'm' :: c :: _ => isAlnumAscii c
   | _ => false)

def requiredStrings : List String :=
  ["proof_id", "job_cid", "output_cid", "provider", "proof_hash", "sig"]

/-- Model of `schemas.validate_proof` (lines 14-87).  The boolean is `True` exactly
when the accumulated error list stays empty.  A truthy non-string in the
CID fields makes `re.match` raise `TypeError`, and a truthy non-string in
`proof_hash`, `sig` or `provider` makes `.startswith`/`.endswith` raise
`AttributeError`; both are uncaught and modelled by `throw`. -/
def validate_proofE (proof : Dict) : Except String Bool := do
  let mut errors : List String := []
  if !(jsonIsStr (dictGet proof "type") "proof") then
    errors := errors ++ ["type must be proof"]
  for fld in requiredStrings do
    if !(truthyOpt (dictGet proof fld)) then
      errors := errors ++ ["missing required field: " ++ fld]
    else
      match dictGet proof fld with
      | some (.str _) => pure ()
      | _ => errors := errors ++ [fld ++ " must be a string"]
  if !(isNumberJ (dictGetD proof "timestamp" .null)) then
    errors := errors ++ ["timestamp must be a number"]
  match dictGet proof "metrics" with
  | some (.obj m) =>
    if !(isNumberJ (dictGetD m "inference_seconds" .null)) then
      errors := errors ++ ["inference_seconds must be a number"]
    if !(isNumberJ (dictGetD m "confidence" .null)) then
      errors := errors ++ ["confidence must be a number"]
    else
      let conf := numValJ (dictGetD m "confidence" (.num 0))
      if conf < 0 ∨ conf > 1 then
        errors := errors ++ ["confidence must be between 0 and 1"]
  | _ => errors := errors ++ ["metrics must be an object"]
  for fld in ["job_cid", "output_cid"] do
    let value := dictGetD proof fld (.str "")
    if value.truthy then
      match value with
      | .str s =>
        if !matchCid s then errors := errors ++ [fld ++ " does not look like a CID"]
      | _ => throw "TypeError"
  if truthyOpt (dictGet proof "proof_hash") then
    match dictGet proof "proof_hash" with
    | some (.str s) =>
      if !(startsWith0x s) then errors := errors ++ ["proof_hash must be 0x-prefixed"]
    | _ => throw "AttributeError"
  if truthyOpt (dictGet proof "sig") then
    match dictGet proof "sig" with
    | some (.str s) =>
      if !(startsWith0x s) then errors := errors ++ ["sig must be 0x-prefixed"]
    | _ => throw "AttributeError"
  let provider := dictGetD proof "provider" (.str "")
  if provider.truthy then
    match provider with
    | .str s =>
      if !(endsWithEth s) then errors := errors ++ ["provider must end in .eth"]
    | _ => throw "AttributeError"
  pure errors.isEmpty

/-! ## Proof acceptance (`epoch.EpochManager.process_proof`) -/

/-- The mutable state the acceptance path touches: the accumulator
`current_proofs` and the set `processed_proof_ids` (a Python set, modelled
as a duplicate-free list). -/
structure EMState where
  current_proofs : List AccItem
  processed : List Json

/-- Whether a Python value of this JSON shape is hashable: `list` and
`dict` are not, so using one as the left operand of `in` on a set raises
`TypeError: unhashable type`. -/
def hashableJ : Json → Bool
  | .arr _ => false
  | .obj _ => false
  | _ => true

/-- Model of `epoch.EpochManager.process_proof` (lines 125-164).  The job fetch is
the parameter `fetch_job` (network I/O; `fetch_by_cid` returns `None` on
any failure).  The membership test `proof_id in self.processed_proof_ids`
hashes `proof_id` first, so an unhashable (array or object) `proof_id`
raises `TypeError` before validation runs. -/
def process_proofE (fetch_job : String → Option Dict) (now : Int)
    (st : EMState) (proof : Dict) : Except String (Bool × EMState) := do
  let pid := dictGetD proof "proof_id" (.str "unknown")
  if !(hashableJ pid) then
    throw "TypeError"
  if st.processed.contains pid then
    return (false, st)
  let ok ← validate_proofE proof
  if !ok then
    return (false, st)
  if !(truthyOpt (dictGet proof "sig")) then
    return (false, st)
  let job : Option Dict :=
    match dictGet proof "job_cid" with
    | some (.str s) => if s ≠ "" then fetch_job s else none
    | _ => none
  return (true, { current_proofs := st.current_proofs ++ [⟨proof, job, now⟩]
                  processed := st.processed ++ [pid] })

/-! ## Proof watcher (`watcher.ProofWatcher.poll`) -/

/-- The body of `poll` (lines 50-62 of `watcher.py`): walk the listed
identifiers; skip seen ones; fetch the rest; a successful fetch is
returned and its identifier added to the seen set, a failed fetch (the
client returns `None`) leaves the set untouched.  Returns the new proofs
and the updated seen set. -/
def pollCore (fetch : String → Option Dict) :
    List String → List String → List Dict × List String
  | seen, [] => ([], seen)
  | seen, pid :: rest =>
    if seen.contains pid then pollCore fetch seen rest
    else match fetch pid with
      | some p =>
        let r := pollCore fetch (seen ++ [pid]) rest
        (p :: r.1, r.2)
      | none => pollCore fetch seen rest

/-- The identifiers a poll delivers (specification companion of
`pollCore`: the ids whose fetch succeeded on first unseen encounter). -/
def newIdsCore (fetch : String → Option Dict) :
    List String → List String → List String
  | _, [] => []
  | seen, pid :: rest =>
    if seen.contains pid then newIdsCore fetch seen rest
    else match fetch pid with
      | some _ => pid :: newIdsCore fetch (seen ++ [pid]) rest
      | none => newIdsCore fetch seen rest

/-- One poll: directory listing plus that tick's fetch behaviour. -/
abbrev PollInput := List String × (String → Option Dict)

/-- Seen set after a sequence of polls. -/
def seenAfterRun (seen : List String) : List PollInput → List String
  | [] => seen
  | inp :: rest => seenAfterRun (pollCore inp.2 seen inp.1).2 rest

/-- All identifiers delivered over a sequence of polls, in order. -/
def allDelivered (seen : List String) : List PollInput → List String
  | [] => []
  | inp :: rest =>
    newIdsCore inp.2 seen inp.1 ++ allDelivered (pollCore inp.2 seen inp.1).2 rest

/-! ## Epoch lifecycle (`epoch.EpochManager`, `config.get_epoch_name`) -/

def natoAlphabet : List String :=
  ["Alpha", "Bravo", "Charlie", "Delta", "Echo", "Foxtrot",
   "Golf", "Hotel", "India", "Juliet", "Kilo", "Lima",
   "Mike", "November", "Oscar", "Papa", "Quebec", "Romeo",
   "Sierra", "Tango", "Uniform", "Victor", "Whiskey", "X-ray",
   "Yankee", "Zulu"]

/-- Model of `config.get_epoch_name`: `NATO_ALPHABET[n % 26]` (the index is always
in range, so the `getD` default is never used). -/
def get_epoch_name (n : Nat) : String :=
  natoAlphabet.getD (n % 26) ""

/-- Python `f"epoch-{n:04d}"`. -/
def epochIdOf (n : Nat) : String :=
  let s := toString n
  "epoch-" ++ String.mk (List.replicate (4 - s.length) '0') ++ s

/-- The counter step of `open_new_epoch` (lines 64-68 of `epoch.py`):
increment `epoch_number`, derive `epoch_id` and `name`. -/
def open_next (n : Nat) : Nat × String × String :=
  (n + 1, epochIdOf (n + 1), get_epoch_name (n + 1))

/-- Model of `epoch_number` after `k` calls to `open_new_epoch`, starting from the
initial `0` of `EpochManager.__init__`. -/
def epochNumberAfter : Nat → Nat
  | 0 => 0
  | k + 1 => (open_next (epochNumberAfter k)).1

/-- The fresh epoch document of `open_new_epoch` (lines 73-90), before
signing; `n` is the incremented `epoch_number`, `ts` the current unix
timestamp. -/
def openEpochDoc (cfg : MConfig) (n : Nat) (ts : Int) : Dict :=
  [("type", .str "epoch"), ("version", .str "1.0.0"),
   ("epoch_id", .str (epochIdOf n)), ("epoch_number", .num n),
   ("name", .str (get_epoch_name n)), ("status", .str "active"),
   ("started_at", .num ts), ("ended_at", .null),
   ("jobs_count", .num 0), ("proofs_count", .num 0),
   ("total_volume_usdc", .str "0.00"), ("merkle_root", .null),
   ("settlements", .null), ("proofs", .arr []),
   ("controller", .str cfg.identity), ("timestamp", .num ts)]

/-! ## Canonical JSON (`crypto.canonical_json`, `json.dumps`) -/

/-- Order on dict entries used by key sorting (`sorted(d.items())`
compares the key first; keys of a dict are unique, so the value is never
compared). -/
def keyLeb (p q : String × Json) : Bool := strLeb p.1 q.1

/-- Model of `sorted(d.items())` on an association list. -/
def sortByKey (l : List (String × Json)) : List (String × Json) :=
  sortBy keyLeb l

mutual

/-- Model of `crypto.sort_keys_recursive` (lines 82-89). -/
def sort_keys_recursive : Json → Json
  | .null => .null
  | .bool b => .bool b
  | .num q => .num q
  | .str s => .str s
  | .arr l => .arr (skrList l)
  | .obj l => .obj (sortByKey (skrFields l))

def skrList : List Json → List Json
  | [] => []
  | j :: rest => sort_keys_recursive j :: skrList rest

def skrFields : List (String × Json) → List (String × Json)
  | [] => []
  | (k, v) :: rest => (k, sort_keys_recursive v) :: skrFields rest

end

/-- Model of `json.dumps` escaping of one character (`ensure_ascii=True`; inputs
here are in the basic multilingual plane, so surrogate pairs are not
modelled). -/
def escapeChar (c : Char) : List Char :=
  if c = '"' then ['\\', '"']
  else if c = '\\' then ['\\', '\\']
  else if c = '\n' then ['\\', 'n']
  else if c = '\t' then ['\\', 't']
  else if c = '\r' then ['\\', 'r']
  else if c.toNat = 8 then ['\\', 'b']
  else if c.toNat = 12 then ['\\', 'f']
  else if c.toNat < 32 ∨ c.toNat ≥ 128 then
    ['\\', 'u', hexDigitChar (c.toNat / 4096 % 16), hexDigitChar (c.toNat / 256 % 16),
     hexDigitChar (c.toNat / 16 % 16), hexDigitChar (c.toNat % 16)]
  else [c]

/-- A JSON string literal as `json.dumps` renders it. -/
def renderJString (s : String) : String :=
  "\"" ++ String.mk (s.toList.foldr (fun c acc => escapeChar c ++ acc) []) ++ "\""

mutual

/-- Model of `json.dumps(·, separators=(",", ":"))` without key sorting: compact
serialization in stored order.  Number rendering (Python `repr` of ints
and floats) is the abstract parameter `r`. -/
def dumpsRaw (r : ℚ → String) : Json → String
  | .null => "null"
  | .bool true => "true"
  | .bool false => "false"
  | .num q => r q
  | .str s => renderJString s
  | .arr l => "[" ++ dumpsList r l ++ "]"
  | .obj l => "\x7b" ++ dumpsFields r l ++ "\x7d"

def dumpsList (r : ℚ → String) : List Json → String
  | [] => ""
  | [j] => dumpsRaw r j
  | j :: rest => dumpsRaw r j ++ "," ++ dumpsList r rest

def dumpsFields (r : ℚ → String) : List (String × Json) → String
  | [] => ""
  | [(k, v)] => renderJString k ++ ":" ++ dumpsRaw r v
  | (k, v) :: rest => renderJString k ++ ":" ++ dumpsRaw r v ++ "," ++ dumpsFields r rest

end

/-- Model of `json.dumps(data, separators=(",", ":"), sort_keys=True)`: with
`sort_keys=True` every object level is emitted in key order, which equals
sorting all levels first and then dumping in stored order. -/
def pyDumpsSorted (r : ℚ → String) (data : Json) : String :=
  dumpsRaw r (sort_keys_recursive data)

/-- Model of `crypto.canonical_json` (lines 71-79):
`json.dumps(sort_keys_recursive(data), separators=(",", ":"), sort_keys=True)`. -/
def canonical_json (r : ℚ → String) (data : Json) : String :=
  pyDumpsSorted r (sort_keys_recursive data)

/-! ## Signing (`crypto.MerlinSigner`) — the secp256k1 signature over the
keccak digest is the abstract parameter `sign`, mapping the canonical
byte string to the hex signature returned by `signed.signature.hex()`. -/

/-- Model of `f"0x{sig}" if not sig.startswith("0x") else sig`. -/
def normalize0x (s : String) : String :=
  if startsWith0x s then s else "0x" ++ s

/-- Model of `crypto.MerlinSigner.sign_snapshot` (lines 40-63): canonical JSON of
the document with `sig` removed, then hash-and-sign. -/
def sign_snapshotM (r : ℚ → String) (sign : String → String) (data : Dict) : String :=
  sign (canonical_json r (.obj (removeSig data)))

/-- Model of `crypto.MerlinSigner.sign_and_add` (lines 65-68). -/
def sign_and_addM (r : ℚ → String) (sign : String → String) (data : Dict) : Dict :=
  dictSet data "sig" (.str (normalize0x (sign_snapshotM r sign data)))

/-! ## Publishing (`publisher.IPFSPublisher`) -/

/-- The deterministic part of `publish_snapshot` (lines 99-167): the bytes
sent to the store and the canonical mutable path the content is copied
to.  (The content address returned by the store is a function of exactly
these bytes.) -/
def publish_snapshotB (r : ℚ → String) (data : Json) (directory snapshot_id : String) :
    String × String :=
  (pyDumpsSorted r data, directory ++ "/" ++ snapshot_id ++ ".json")

/-- Model of `publish_epoch` (lines 169-176). -/
def publish_epochB (r : ℚ → String) (epoch : Dict) : String × String :=
  publish_snapshotB r (.obj epoch) "/swarmledger/epochs"
    (match dictGetD epoch "epoch_id" (.str "unknown") with
     | .str s => s
     | _ => "unknown")

/-! ## Sealing (`epoch.EpochManager.seal_current_epoch`) -/

/-- Settlements as the JSON value embedded in the sealed document. -/
def settlementsToJson (S : Settlements) : Json :=
  .obj [("total_volume", .num S.total_volume),
        ("provider_pool", .num S.provider_pool),
        ("network_ops", .num S.network_ops),
        ("providers", .obj (S.providers.map (fun p => (p.1, Json.num p.2)))),
        ("provider_count", .num S.provider_count)]

/-- The `proof_cids` list of the seal (lines 186-190):
`proof.get("proof_id", "")` of each accumulator entry.  Entries passed
validation, so the value is a string; the default covers the impossible
non-string case as well. -/
def proofCidsOf (acc : List AccItem) : List String :=
  acc.map (fun p =>
    match dictGetD p.proof "proof_id" (.str "") with
    | .str s => s
    | _ => "")

/-- Round half to even of `100 · q` on an exact rational, computed from
the numerator and denominator (Python `%.2f` rounds the binary float; the
repository's two-decimal totals are modelled on the exact value).  With
`a = 100 · num q` and `b = den q > 0`, the floor is `a.fdiv b` and the
remainder doubled is compared against `b` to decide the direction,
breaking ties to even. -/
def roundCents (q : ℚ) : Int :=
  let a := q.num * 100
  let b := (q.den : Int)
  let f := Int.fdiv a b
  let r2 := 2 * (a - f * b)
  if r2 < b then f
  else if r2 > b then f + 1
  else if f % 2 = 0 then f else f + 1

def pad2 (n : Nat) : String :=
  if n < 10 then "0" ++ toString n else toString n

/-- Python `f"{x:.2f}"`. -/
def format2f (q : ℚ) : String :=
  let n := roundCents q
  (if n < 0 then "-" else "") ++ toString (n.natAbs / 100) ++ "." ++ pad2 (n.natAbs % 100)

/-- The sealed document built by `seal_current_epoch` once the
settlements `S` and the Merkle root `mr` are in hand (lines 196-212 of
`epoch.py`): overlay the sealed fields on the active document, delete any
prior `sig`, re-sign. -/
def sealedDocOf (r : ℚ → String) (sign : String → String) (cur : Dict)
    (acc : List AccItem) (S : Settlements) (mr : String) (now : Int) : Dict :=
  sign_and_addM r sign (removeSig (dictSets cur
    [("status", .str "sealed"), ("ended_at", .num now),
     ("jobs_count", .num acc.length), ("proofs_count", .num acc.length),
     ("total_volume_usdc", .str (format2f S.total_volume)),
     ("merkle_root", .str mr),
     ("settlements", settlementsToJson S),
     ("proofs", .arr ((proofCidsOf acc).map Json.str)),
     ("timestamp", .num now)]))

/-- Model of `epoch.EpochManager.seal_current_epoch` (lines 166-245), the part that
produces the sealed document: compute settlements, collect the proof ids,
compute the Merkle root (`"0x" + "0"*64` for an empty list), then build
the sealed document (`sealedDocOf`).  `throw` models the uncaught
exceptions of settlement computation (`AttributeError`) and Merkle hex
decoding (`ValueError`). -/
def seal_current_epochE (K : ByteL → ByteL) (sign : String → String) (r : ℚ → String)
    (cfg : MConfig) (now : Int) (cur : Dict) (acc : List AccItem) :
    Except String Dict := do
  let settlements ← computeSettlementsE cfg acc
  let merkle_root ←
    if (proofCidsOf acc).isEmpty then pure zeros64
    else match compute_merkle_rootE K (proofCidsOf acc) with
      | some m => pure m
      | none => throw "ValueError"
  pure (sealedDocOf r sign cur acc settlements merkle_root now)

/-- The settlements of an empty accumulator, as `_compute_settlements`
computes them. -/
def emptySettle (cfg : MConfig) : Settlements :=
  { total_volume := 0, provider_pool := 0 * cfg.provider_share,
    network_ops := 0 * cfg.network_ops_share, providers := [], provider_count := 0 }

/-! ## Concrete instances used by counterexamples and witnesses -/

/-- A concrete stand-in for the abstract keccak-256 parameter. -/
def K0 : ByteL → ByteL := fun _ => List.replicate 32 0

/-- A concrete stand-in for the abstract number renderer. -/
def r0 : ℚ → String := fun _ => "0"

/-- A concrete stand-in for the abstract signer. -/
def sign0 : String → String := fun _ => "ab"

/-- The default configuration (`PROVIDER_SHARE=0.75`, `NETWORK_OPS_SHARE=0.25`). -/
def cfg0 : MConfig := {}

/-- A configuration whose two shares do not sum to 1
(`PROVIDER_SHARE=0.5` with `NETWORK_OPS_SHARE` left at its default). -/
def cfgHalf : MConfig := { provider_share := 1/2, network_ops_share := 1/4 }

/-- A schema-valid proof document whose `proof_id` is `0x`-prefixed but
not valid hex. -/
def proofHexBad : Dict :=
  [("type", .str "proof"), ("proof_id", .str "0xzz"),
   ("job_cid", .str "bafyabc"), ("output_cid", .str "bafydef"),
   ("provider", .str "alice.eth"), ("proof_hash", .str "0x11"),
   ("sig", .str "0x22"), ("timestamp", .num 1700000000),
   ("metrics", .obj [("inference_seconds", .num 2), ("confidence", .num 1)])]

/-- A proof document on which `validate_proof` raises `TypeError`: the
required-string pass records `job_cid must be a string`, then the CID
pattern check calls `re.match` on the truthy non-string value. -/
def proofRaising : Dict :=
  [("type", .str "proof"), ("proof_id", .str "p1"),
   ("job_cid", .num 5), ("output_cid", .str "bafydef"),
   ("provider", .str "alice.eth"), ("proof_hash", .str "0x11"),
   ("sig", .str "0x22"), ("timestamp", .num 1700000000),
   ("metrics", .obj [("inference_seconds", .num 2), ("confidence", .num 1)])]

/-- The 64-hexit leaf item used against the single-leaf claim. -/
def oneLeafItem : String :=
  "0x" ++ String.mk (List.replicate 64 '1')

/-- The precondition under which one Merkle item cannot make
`bytes.fromhex` raise: if it begins with `0x`, the remainder decodes. -/
def hexLeafOk (s : String) : Bool :=
  match s.toList with
  | '0' :: 'x' :: rest => (decodeHexPairs rest).isSome
  | _ => true

/-- Sum of the amounts of an earnings table. -/
def sumVals (l : List (String × ℚ)) : ℚ :=
  (l.map (fun p => p.2)).sum

/-- A one-item accumulator: the proof `proofHexBad` with no fetched job
(reward defaults to `0.10`). -/
def accEx : List AccItem :=
  [{ proof := proofHexBad, job := none, processed_at := 0 }]

/-- Settlements of `accEx` under the default configuration. -/
def Sex : Settlements :=
  { total_volume := 1/10, provider_pool := 3/40, network_ops := 1/40,
    providers := [("alice.eth", 3/40)], provider_count := 1 }

/-- Settlements of `accEx` under `cfgHalf`, whose shares sum to `0.75`. -/
def SexHalf : Settlements :=
  { total_volume := 1/10, provider_pool := 1/20, network_ops := 1/40,
    providers := [("alice.eth", 1/20)], provider_count := 1 }

/-- An epoch-manager state whose processed set already holds `0xzz`. -/
def stEx : EMState :=
  { current_proofs := [], processed := [.str "0xzz"] }

/-- The sealed document of a concrete empty-epoch seal under the stub
signer, renderer and hash. -/
def dEx : Dict :=
  sealedDocOf r0 sign0 (sign_and_addM r0 sign0 (openEpochDoc cfg0 1 5)) []
    (emptySettle cfg0) zeros64 7

/-! # Theorems -/

/-- Claim C1 (amended): for every hash function and every item `x`,
`compute_merkle_root([x])` is the leaf digest of `x` itself, rendered as
`0x`-prefixed hex — the `while len(hashes) > 1` loop never runs on a
single leaf, so no odd-level duplication happens and the root is *not*
`keccak(leaf ∥ leaf)`. -/
theorem merkle_root_single (K : ByteL → ByteL) (x : String) :
    compute_merkle_rootE K [x] = (leafOf K x).map (fun l => "0x" ++ toHexStr l) := by
  cases h : leafOf K x <;>
    simp [compute_merkle_rootE, sortStrings, sortBy, insertSortedBy,
      h, buildTree, buildTreeFuel, List.mapM, List.mapM.loop]

/-- Claim C1, counterexample: with a concrete hash function and the
64-hexit item `0x11…11`, the single-item Merkle root is the decoded leaf
`0x11…11`, not `keccak(leaf ∥ leaf)` as the claim states. -/
theorem merkle_root_single_cex :
    compute_merkle_rootE K0 [oneLeafItem] ≠
      (leafOf K0 oneLeafItem).map (fun l => "0x" ++ toHexStr (K0 (l ++ l))) := by
  decide

theorem insertSortedBy_perm {α : Type} (le : α → α → Bool) (x : α) :
    ∀ l : List α, (insertSortedBy le x l).Perm (x :: l) := by
  intro l
  induction l with
  | nil => exact List.Perm.refl _
  | cons y t ih =>
    rw [insertSortedBy]
    by_cases h : le x y = true
    · rw [if_pos h]
    · rw [if_neg h]
      exact (ih.cons y).trans (List.Perm.swap x y t)

theorem sortBy_perm {α : Type} (le : α → α → Bool) :
    ∀ l : List α, (sortBy le l).Perm l := by
  intro l
  induction l with
  | nil => exact List.Perm.refl _
  | cons x t ih =>
    rw [sortBy]
    exact (insertSortedBy_perm le x (sortBy le t)).trans (ih.cons x)

theorem insertSortedBy_pairwise {α : Type} (le : α → α → Bool)
    (htot : ∀ a b, le a b = true ∨ le b a = true)
    (htr : ∀ a b c, le a b = true → le b c = true → le a c = true) (x : α) :
    ∀ l : List α, List.Pairwise (fun a b => le a b = true) l →
      List.Pairwise (fun a b => le a b = true) (insertSortedBy le x l) := by
  intro l
  induction l with
  | nil => intro _; exact List.pairwise_singleton _ _
  | cons y t ih =>
    intro hp
    rw [insertSortedBy]
    by_cases h : le x y = true
    · rw [if_pos h]
      refine List.Pairwise.cons ?_ hp
      intro b hb
      rcases List.mem_cons.mp hb with rfl | hb'
      · exact h
      · exact htr x y b h (List.rel_of_pairwise_cons hp hb')
    · rw [if_neg h]
      have hyx : le y x = true := (htot x y).resolve_left h
      refine List.Pairwise.cons ?_ (ih hp.of_cons)
      intro b hb
      have hb2 : b ∈ x :: t := (insertSortedBy_perm le x t).mem_iff.mp hb
      rcases List.mem_cons.mp hb2 with rfl | hb'
      · exact hyx
      · exact List.rel_of_pairwise_cons hp hb'

theorem sortBy_pairwise {α : Type} (le : α → α → Bool)
    (htot : ∀ a b, le a b = true ∨ le b a = true)
    (htr : ∀ a b c, le a b = true → le b c = true → le a c = true) :
    ∀ l : List α, List.Pairwise (fun a b => le a b = true) (sortBy le l) := by
  intro l
  induction l with
  | nil => exact List.Pairwise.nil
  | cons x t ih =>
    rw [sortBy]
    exact insertSortedBy_pairwise le htot htr x _ ih

theorem sortBy_of_pairwise {α : Type} (le : α → α → Bool) :
    ∀ l : List α, List.Pairwise (fun a b => le a b = true) l → sortBy le l = l := by
  intro l
  induction l with
  | nil => intro _; rfl
  | cons x t ih =>
    intro hp
    rw [sortBy, ih hp.of_cons]
    cases t with
    | nil => rfl
    | cons y u =>
      rw [insertSortedBy, if_pos (List.rel_of_pairwise_cons hp (by simp))]

theorem insertSortedBy_map {α β : Type} (le : α → α → Bool) (le' : β → β → Bool)
    (f : α → β) (hf : ∀ a b, le' (f a) (f b) = le a b) (x : α) :
    ∀ l : List α, insertSortedBy le' (f x) (l.map f) = (insertSortedBy le x l).map f := by
  intro l
  induction l with
  | nil => rfl
  | cons y t ih =>
    rw [List.map_cons, insertSortedBy, insertSortedBy, hf]
    by_cases h : le x y = true
    · rw [if_pos h, if_pos h, List.map_cons, List.map_cons]
    · rw [if_neg h, if_neg h, List.map_cons, ih]

theorem sortBy_map_comm {α β : Type} (le : α → α → Bool) (le' : β → β → Bool)
    (f : α → β) (hf : ∀ a b, le' (f a) (f b) = le a b) :
    ∀ l : List α, sortBy le' (l.map f) = (sortBy le l).map f := by
  intro l
  induction l with
  | nil => rfl
  | cons x t ih =>
    rw [List.map_cons, sortBy, sortBy, ih, insertSortedBy_map le le' f hf]

theorem eq_of_perm_of_sortedBy {α : Type} (le : α → α → Bool)
    (hanti : ∀ a b, le a b = true → le b a = true → a = b) :
    ∀ l₁ l₂ : List α, l₁.Perm l₂ →
      List.Pairwise (fun a b => le a b = true) l₁ →
      List.Pairwise (fun a b => le a b = true) l₂ → l₁ = l₂ := by
  intro l₁
  induction l₁ with
  | nil =>
    intro l₂ hp _ _
    exact hp.nil_eq
  | cons a t ih =>
    intro l₂ hp h1 h2
    cases l₂ with
    | nil => exact absurd hp.symm.nil_eq (by simp)
    | cons b u =>
      have hab : a = b := by
        have ha2 : a ∈ b :: u := hp.mem_iff.mp (by simp)
        have hb1 : b ∈ a :: t := hp.symm.mem_iff.mp (by simp)
        rcases List.mem_cons.mp ha2 with h | h
        · exact h
        · rcases List.mem_cons.mp hb1 with h' | h'
          · exact h'.symm
          · exact hanti a b (List.rel_of_pairwise_cons h1 h')
              (List.rel_of_pairwise_cons h2 h)
      subst hab
      rw [ih u hp.cons_inv h1.of_cons h2.of_cons]

theorem char_toNat_inj (a b : Char) (h : a.toNat = b.toNat) : a = b := by
  rcases a with ⟨⟨⟨na, hna⟩⟩, va⟩
  rcases b with ⟨⟨⟨nb, hnb⟩⟩, vb⟩
  simp [Char.toNat, UInt32.toNat] at h
  subst h
  rfl

theorem listLe_cons_iff (a b : Char) (as bs : List Char) :
    listLe (a :: as) (b :: bs) = true ↔
      a.toNat < b.toNat ∨ (a.toNat = b.toNat ∧ listLe as bs = true) := by
  rw [listLe]
  by_cases h1 : a.toNat < b.toNat
  · rw [if_pos h1]
    constructor
    · intro _
      exact Or.inl h1
    · intro _
      rfl
  · rw [if_neg h1]
    by_cases h2 : b.toNat < a.toNat
    · rw [if_pos h2]
      constructor
      · intro h
        exact absurd h (by simp)
      · intro h
        exfalso
        rcases h with h | ⟨h, _⟩ <;> omega
    · rw [if_neg h2]
      have heq : a.toNat = b.toNat := by omega
      constructor
      · intro h
        exact Or.inr ⟨heq, h⟩
      · intro h
        rcases h with h | ⟨_, h⟩
        · omega
        · exact h

theorem listLe_total : ∀ x y : List Char, listLe x y = true ∨ listLe y x = true := by
  intro x
  induction x with
  | nil => intro y; exact Or.inl rfl
  | cons a as ih =>
    intro y
    cases y with
    | nil => exact Or.inr rfl
    | cons b bs =>
      rw [listLe_cons_iff, listLe_cons_iff]
      by_cases hab : a.toNat < b.toNat
      · exact Or.inl (Or.inl hab)
      · by_cases hba : b.toNat < a.toNat
        · exact Or.inr (Or.inl hba)
        · rcases ih bs with h | h
          · exact Or.inl (Or.inr ⟨by omega, h⟩)
          · exact Or.inr (Or.inr ⟨by omega, h⟩)

theorem listLe_trans : ∀ x y z : List Char,
    listLe x y = true → listLe y z = true → listLe x z = true := by
  intro x
  induction x with
  | nil => intro y z _ _; rfl
  | cons a as ih =>
    intro y z hxy hyz
    cases y with
    | nil => exact absurd hxy (by rw [listLe]; simp)
    | cons b bs =>
      cases z with
      | nil => exact absurd hyz (by rw [listLe]; simp)
      | cons c cs =>
        rw [listLe_cons_iff] at hxy hyz ⊢
        rcases hxy with h | ⟨he1, h1⟩
        · rcases hyz with h' | ⟨he2, _⟩
          · exact Or.inl (by omega)
          · exact Or.inl (by omega)
        · rcases hyz with h' | ⟨he2, h2⟩
          · exact Or.inl (by omega)
          · exact Or.inr ⟨by omega, ih bs cs h1 h2⟩

theorem listLe_antisymm : ∀ x y : List Char,
    listLe x y = true → listLe y x = true → x = y := by
  intro x
  induction x with
  | nil =>
    intro y _ h2
    cases y with
    | nil => rfl
    | cons b bs => exact absurd h2 (by rw [listLe]; simp)
  | cons a as ih =>
    intro y h1 h2
    cases y with
    | nil => exact absurd h1 (by rw [listLe]; simp)
    | cons b bs =>
      rw [listLe_cons_iff] at h1 h2
      have heq : a.toNat = b.toNat := by
        rcases h1 with h | ⟨h, _⟩ <;> rcases h2 with h' | ⟨h', _⟩ <;> omega
      have htail : listLe as bs = true := by
        rcases h1 with h | ⟨_, h⟩
        · omega
        · exact h
      have htail' : listLe bs as = true := by
        rcases h2 with h | ⟨_, h⟩
        · omega
        · exact h
      rw [char_toNat_inj a b heq, ih bs htail htail']

theorem strLeb_total (a b : String) : strLeb a b = true ∨ strLeb b a = true :=
  listLe_total _ _

theorem strLeb_trans (a b c : String) :
    strLeb a b = true → strLeb b c = true → strLeb a c = true :=
  listLe_trans _ _ _

theorem strLeb_antisymm (a b : String) :
    strLeb a b = true → strLeb b a = true → a = b := by
  intro h1 h2
  exact String.toList_inj.mp (listLe_antisymm _ _ h1 h2)

/-- Claim C4: the Merkle root is invariant under permutation of the input
list, because `compute_merkle_root` sorts the items before hashing. -/
theorem merkle_root_perm (K : ByteL → ByteL) (L L' : List String) (h : L.Perm L') :
    compute_merkle_rootE K L = compute_merkle_rootE K L' := by
  have hs : sortStrings L = sortStrings L' :=
    eq_of_perm_of_sortedBy strLeb strLeb_antisymm _ _
      (((sortBy_perm strLeb L).trans h).trans (sortBy_perm strLeb L').symm)
      (sortBy_pairwise strLeb strLeb_total strLeb_trans L)
      (sortBy_pairwise strLeb strLeb_total strLeb_trans L')
  have hlen : L.length = L'.length := h.length_eq
  have he : L.isEmpty = L'.isEmpty := by
    cases L <;> cases L' <;> simp_all
  unfold compute_merkle_rootE
  rw [hs, he]

/-- Claim C4, witness at a concrete permutation. -/
theorem merkle_root_perm_witness :
    compute_merkle_rootE K0 ["b", "a"] = compute_merkle_rootE K0 ["a", "b"] :=
  merkle_root_perm K0 ["b", "a"] ["a", "b"] (by decide)

theorem leafOf_isSome_of_hexOk (K : ByteL → ByteL) (s : String)
    (h : hexLeafOk s = true) : (leafOf K s).isSome = true := by
  unfold leafOf
  split
  · rename_i rest heq
    unfold hexLeafOk at h
    rw [heq] at h
    exact h
  · simp

theorem mapMloop_isSome (f : String → Option ByteL) :
    ∀ (l : List String) (acc : List ByteL),
      (∀ x ∈ l, (f x).isSome = true) → (List.mapM.loop f l acc).isSome = true := by
  intro l
  induction l with
  | nil => intro acc _; rfl
  | cons a t ih =>
    intro acc h
    rcases hfa : f a with _ | v
    · have ha := h a (by simp)
      rw [hfa] at ha
      simp at ha
    · simp only [List.mapM.loop, hfa, Option.bind_eq_bind, Option.some_bind]
      exact ih _ (fun x hx => h x (by simp [hx]))

theorem mapM_isSome_of_forall (f : String → Option ByteL) (l : List String)
    (h : ∀ x ∈ l, (f x).isSome = true) : (l.mapM f).isSome = true :=
  mapMloop_isSome f l [] h

/-- Claim C10: `compute_merkle_root` is total only when every `0x`-item
has a decodable even-length hex remainder: the hex branch fails on
`0xzz` (non-hex digits) and `0xabc` (odd length); the schema accepts a
proof whose `proof_id` is `0xzz`, and sealing an epoch holding that proof
fails with the uncaught `ValueError`; conversely, when every `0x`-item
decodes, a root is always returned. -/
theorem merkle_root_bad_hex (K : ByteL → ByteL) :
    validate_proofE proofHexBad = .ok true ∧
    compute_merkle_rootE K ["0xzz"] = none ∧
    compute_merkle_rootE K ["0xabc"] = none ∧
    (∀ sign r cfg now cur t,
      seal_current_epochE K sign r cfg now cur [⟨proofHexBad, none, t⟩] =
        .error "ValueError") ∧
    (∀ items : List String, (∀ s ∈ items, hexLeafOk s = true) →
      (compute_merkle_rootE K items).isSome = true) := by
  refine ⟨rfl, rfl, rfl, fun sign r cfg now cur t => rfl, ?_⟩
  intro items hvalid
  have hmem : ∀ s ∈ sortStrings items, (leafOf K s).isSome = true := fun s hs =>
    leafOf_isSome_of_hexOk K s (hvalid s ((sortBy_perm strLeb items).mem_iff.mp hs))
  have hmap := mapM_isSome_of_forall (leafOf K) (sortStrings items) hmem
  unfold compute_merkle_rootE
  cases hi : items.isEmpty
  · rcases hm : (sortStrings items).mapM (leafOf K) with _ | hashes
    · rw [hm] at hmap
      simp at hmap
    · simp [hm]
  · simp

/-- Claim C10, witness: a decodable `0x`-item and a plain item both yield
a root. -/
theorem merkle_root_bad_hex_witness :
    (compute_merkle_rootE K0 ["0x1122", "cid"]).isSome = true :=
  (merkle_root_bad_hex K0).2.2.2.2 ["0x1122", "cid"] (by decide)

theorem exceptBind_ok {a b : Type} (x : a) (f : a → Except String b) :
    (Except.ok x >>= f) = f x := rfl

theorem computeSettlements_accEx_cfg0 : computeSettlementsE cfg0 accEx = .ok Sex := by
  simp only [computeSettlementsE, settleFold, accEx, rewardOfE, providerNameOf, dictGetD,
    dictGet, proofHexBad, addEarning, cfg0, Sex, exceptBind_ok, List.find?, Option.map,
    Option.getD]
  norm_num
  rfl

theorem computeSettlements_accEx_cfgHalf :
    computeSettlementsE cfgHalf accEx = .ok SexHalf := by
  simp only [computeSettlementsE, settleFold, accEx, rewardOfE, providerNameOf, dictGetD,
    dictGet, proofHexBad, addEarning, cfgHalf, SexHalf, exceptBind_ok, List.find?,
    Option.map, Option.getD]
  norm_num
  rfl

theorem addEarning_sum (k : String) (v : ℚ) :
    ∀ l, sumVals (addEarning l k v) = sumVals l + v := by
  intro l
  induction l with
  | nil => simp [addEarning, sumVals]
  | cons p t ih =>
    rcases p with ⟨k', v'⟩
    by_cases hk : k' = k
    · simp only [addEarning, if_pos hk, sumVals, List.map_cons, List.sum_cons]
      ring
    · simp only [addEarning, if_neg hk, sumVals, List.map_cons, List.sum_cons] at ih ⊢
      rw [ih]
      ring

theorem settleFold_invariant (cfg : MConfig) :
    ∀ (items : List AccItem) (tv : ℚ) (earn : List (String × ℚ)) (tv' : ℚ)
      (earn' : List (String × ℚ)),
      settleFold cfg items tv earn = .ok (tv', earn') →
      sumVals earn' - cfg.provider_share * tv' = sumVals earn - cfg.provider_share * tv := by
  intro items
  induction items with
  | nil =>
    intro tv earn tv' earn' h
    simp only [settleFold, Except.ok.injEq, Prod.mk.injEq] at h
    rw [h.1, h.2]
  | cons item rest ih =>
    intro tv earn tv' earn' h
    unfold settleFold at h
    rcases hr : rewardOfE item.job with e | r
    · rw [hr] at h
      exact Except.noConfusion h
    · rw [hr] at h
      have step := ih _ _ _ _ h
      rw [step, addEarning_sum]
      ring

theorem computeSettlements_ok (cfg : MConfig) (acc : List AccItem) (S : Settlements)
    (hok : computeSettlementsE cfg acc = .ok S) :
    ∃ tv earn, settleFold cfg acc 0 [] = .ok (tv, earn) ∧
      S = { total_volume := tv, provider_pool := tv * cfg.provider_share,
            network_ops := tv * cfg.network_ops_share, providers := earn,
            provider_count := earn.length } := by
  rcases hf : settleFold cfg acc 0 [] with e | ⟨tv, earn⟩
  · unfold computeSettlementsE at hok
    rw [hf] at hok
    exact Except.noConfusion hok
  · unfold computeSettlementsE at hok
    rw [hf] at hok
    exact ⟨tv, earn, rfl, (Except.ok.inj hok).symm⟩

/-- Claim C2: whenever the two configured shares sum to 1 and the
settlement computation returns, the provider amounts sum to the provider
pool and the pool plus network ops equals the total volume, both within
`1e-9` (the identities are exact in the rational model). -/
theorem settlement_conservation (cfg : MConfig) (acc : List AccItem) (S : Settlements)
    (hshare : cfg.provider_share + cfg.network_ops_share = 1)
    (hok : computeSettlementsE cfg acc = .ok S) :
    |sumVals S.providers - S.provider_pool| ≤ 1 / 1000000000 ∧
    |S.provider_pool + S.network_ops - S.total_volume| ≤ 1 / 1000000000 := by
  obtain ⟨tv, earn, hf, hS⟩ := computeSettlements_ok cfg acc S hok
  have hsum : sumVals earn = cfg.provider_share * tv := by
    have h := settleFold_invariant cfg acc 0 [] tv earn hf
    have h0 : sumVals ([] : List (String × ℚ)) = 0 := rfl
    rw [h0, mul_zero, sub_zero] at h
    linarith
  subst hS
  constructor
  · show |sumVals earn - tv * cfg.provider_share| ≤ 1 / 1000000000
    have hz : sumVals earn - tv * cfg.provider_share = 0 := by
      rw [hsum]
      ring
    rw [hz, abs_zero]
    norm_num
  · show |tv * cfg.provider_share + tv * cfg.network_ops_share - tv| ≤ 1 / 1000000000
    have hz : tv * cfg.provider_share + tv * cfg.network_ops_share - tv = 0 := by
      rw [← mul_add, hshare, mul_one]
      ring
    rw [hz, abs_zero]
    norm_num

/-- Claim C2, witness at a concrete accumulator and the default
configuration. -/
theorem settlement_conservation_witness :
    |sumVals Sex.providers - Sex.provider_pool| ≤ 1 / 1000000000 ∧
    |Sex.provider_pool + Sex.network_ops - Sex.total_volume| ≤ 1 / 1000000000 :=
  settlement_conservation cfg0 accEx Sex (by norm_num [cfg0])
    computeSettlements_accEx_cfg0

/-- Claim C3 (amended): the provider pool is `total_volume ×
provider_share` and network ops is `total_volume × network_ops_share` —
the *independently configured* share, which equals
`total_volume × (1 − provider_share)` only when the two shares sum to 1. -/
theorem settlement_shares (cfg : MConfig) (acc : List AccItem) (S : Settlements)
    (hok : computeSettlementsE cfg acc = .ok S) :
    S.provider_pool = S.total_volume * cfg.provider_share ∧
    S.network_ops = S.total_volume * cfg.network_ops_share ∧
    (cfg.provider_share + cfg.network_ops_share = 1 →
      S.network_ops = S.total_volume * (1 - cfg.provider_share)) := by
  obtain ⟨tv, earn, _, hS⟩ := computeSettlements_ok cfg acc S hok
  subst hS
  refine ⟨rfl, rfl, fun h => ?_⟩
  show tv * cfg.network_ops_share = tv * (1 - cfg.provider_share)
  have hn : cfg.network_ops_share = 1 - cfg.provider_share := by linarith
  rw [hn]

/-- Claim C3, witness: the amended share identities at a concrete
accumulator under `cfgHalf`. -/
theorem settlement_shares_witness :
    SexHalf.provider_pool = SexHalf.total_volume * cfgHalf.provider_share ∧
    SexHalf.network_ops = SexHalf.total_volume * cfgHalf.network_ops_share :=
  ⟨(settlement_shares cfgHalf accEx SexHalf computeSettlements_accEx_cfgHalf).1,
   (settlement_shares cfgHalf accEx SexHalf computeSettlements_accEx_cfgHalf).2.1⟩

/-- Claim C3, counterexample: with `PROVIDER_SHARE=0.5` and
`NETWORK_OPS_SHARE` left at its default `0.25`, the computed
`network_ops` is `total_volume × 0.25`, not `total_volume × (1 − 0.5)`
as the claim states for every configured provider share. -/
theorem settlement_shares_cex :
    computeSettlementsE cfgHalf accEx = .ok SexHalf ∧
    SexHalf.network_ops ≠ SexHalf.total_volume * (1 - cfgHalf.provider_share) :=
  ⟨computeSettlements_accEx_cfgHalf, by norm_num [SexHalf, cfgHalf]⟩

theorem exceptBind_err {a b : Type} (e : String) (f : a → Except String b) :
    ((Except.error e : Except String a) >>= f) = Except.error e := rfl

theorem exceptPure {b : Type} (x : b) : (pure x : Except String b) = Except.ok x := rfl

/-- Claim C8 (amended): for a proof with a hashable `proof_id`, an id
already processed, or a validator that rejects with `False`, or a
validation pass followed by a falsy `sig`, makes `process_proof` return
`False` with the accumulator and the processed set unchanged; an
unhashable (array or object) `proof_id` instead raises `TypeError` at
the membership test, before validation; and when the validator itself
raises (a truthy non-string in a pattern-checked field) on a fresh,
hashable id, the exception propagates — no `False` is returned — though
the state is unchanged in every raising case as well. -/
theorem process_proof_rejects (fetch : String → Option Dict) (now : Int) (st : EMState)
    (proof : Dict) :
    (hashableJ (dictGetD proof "proof_id" (.str "unknown")) = true →
      (st.processed.contains (dictGetD proof "proof_id" (.str "unknown")) = true ∨
       validate_proofE proof = .ok false ∨
       (validate_proofE proof = .ok true ∧ truthyOpt (dictGet proof "sig") = false)) →
      process_proofE fetch now st proof = .ok (false, st)) ∧
    (hashableJ (dictGetD proof "proof_id" (.str "unknown")) = false →
      process_proofE fetch now st proof = .error "TypeError") ∧
    (∀ e, hashableJ (dictGetD proof "proof_id" (.str "unknown")) = true →
      st.processed.contains (dictGetD proof "proof_id" (.str "unknown")) = false →
      validate_proofE proof = .error e →
      process_proofE fetch now st proof = .error e) := by
  refine ⟨?_, ?_, ?_⟩
  · intro hh h
    unfold process_proofE
    rcases h with h | h | ⟨h, h2⟩
    · simp [hh, h]
      try rfl
    · by_cases hdup : st.processed.contains (dictGetD proof "proof_id" (.str "unknown"))
      · simp [hh, hdup]
        try rfl
      · simp [hh, hdup, h, exceptBind_ok]
        try rfl
    · by_cases hdup : st.processed.contains (dictGetD proof "proof_id" (.str "unknown"))
      · simp [hh, hdup]
        try rfl
      · simp [hh, hdup, h, h2, exceptBind_ok]
        try rfl
  · intro hh
    unfold process_proofE
    simp [hh]
    try rfl
  · intro e hh hdup herr
    unfold process_proofE
    simp [hh, hdup, herr, exceptBind_err]

/-- Claim C8, witness: a duplicate (hashable) `proof_id` is rejected with
the state unchanged. -/
theorem process_proof_rejects_witness :
    process_proofE (fun _ => none) 0 stEx proofHexBad = .ok (false, stEx) :=
  (process_proof_rejects (fun _ => none) 0 stEx proofHexBad).1 (by decide)
    (Or.inl (by decide))

/-- Claim C8, counterexample: `proofRaising` (its `job_cid` is the number
`5`) fails schema validation — the validator records `job_cid must be a
string` and then raises `TypeError` in the CID pattern check — yet
`process_proof` does not return `False`: the exception propagates. -/
theorem process_proof_rejects_cex :
    validate_proofE proofRaising ≠ .ok true ∧
    validate_proofE proofRaising ≠ .ok false ∧
    process_proofE (fun _ => none) 0 ⟨[], []⟩ proofRaising ≠
      .ok (false, (⟨[], []⟩ : EMState)) ∧
    process_proofE (fun _ => none) 0 ⟨[], []⟩ proofRaising = .error "TypeError" := by
  have h : validate_proofE proofRaising = .error "TypeError" := rfl
  have h2 : process_proofE (fun _ => none) 0 ⟨[], []⟩ proofRaising =
      .error "TypeError" := rfl
  exact ⟨by simp [h], by simp [h], by simp [h2], h2⟩

theorem containsS_iff (l : List String) (x : String) : l.contains x = true ↔ x ∈ l :=
  List.elem_iff

theorem pollCore_spec (fetch : String → Option Dict) :
    ∀ (ids seen : List String),
      (pollCore fetch seen ids).2 = seen ++ newIdsCore fetch seen ids ∧
      (pollCore fetch seen ids).1 =
        (newIdsCore fetch seen ids).map (fun i => (fetch i).getD []) := by
  intro ids
  induction ids with
  | nil => intro seen; simp [pollCore, newIdsCore]
  | cons pid rest ih =>
    intro seen
    by_cases hs : pid ∈ seen
    · simp [pollCore, newIdsCore, hs, ih seen]
    · rcases hf : fetch pid with _ | p
      · simp [pollCore, newIdsCore, hs, hf, ih seen]
      · simp [pollCore, newIdsCore, hs, hf, ih (seen ++ [pid])]

theorem newIdsCore_fresh (fetch : String → Option Dict) (x : String) :
    ∀ (ids seen : List String), x ∈ newIdsCore fetch seen ids →
      x ∉ seen ∧ (fetch x).isSome = true := by
  intro ids
  induction ids with
  | nil => intro seen h; simp [newIdsCore] at h
  | cons pid rest ih =>
    intro seen h
    by_cases hs : seen.contains pid
    · rw [newIdsCore, if_pos hs] at h
      exact ih seen h
    · rcases hf : fetch pid with _ | p
      · rw [newIdsCore, if_neg hs, hf] at h
        exact ih seen h
      · rw [newIdsCore, if_neg hs, hf] at h
        rcases List.mem_cons.mp h with heq | h'
        · subst heq
          refine ⟨fun hmem => hs ((containsS_iff seen x).mpr hmem), ?_⟩
          rw [hf]
          rfl
        · have := ih (seen ++ [pid]) h'
          refine ⟨fun hmem => this.1 (List.mem_append_left _ hmem), this.2⟩

theorem pollCore_nodup (fetch : String → Option Dict) :
    ∀ (ids seen : List String), seen.Nodup → (pollCore fetch seen ids).2.Nodup := by
  intro ids
  induction ids with
  | nil => intro seen h; simpa [pollCore] using h
  | cons pid rest ih =>
    intro seen h
    by_cases hs : seen.contains pid
    · rw [pollCore, if_pos hs]
      exact ih seen h
    · rcases hf : fetch pid with _ | p
      · rw [pollCore, if_neg hs, hf]
        exact ih seen h
      · rw [pollCore, if_neg hs, hf]
        refine ih (seen ++ [pid]) ?_
        rw [List.nodup_append]
        refine ⟨h, List.nodup_singleton pid, ?_⟩
        intro a ha hb
        rw [List.mem_singleton] at hb
        subst hb
        exact hs ((containsS_iff seen a).mpr ha)

theorem seenAfterRun_eq :
    ∀ (polls : List PollInput) (seen : List String),
      seenAfterRun seen polls = seen ++ allDelivered seen polls := by
  intro polls
  induction polls with
  | nil => intro seen; simp [seenAfterRun, allDelivered]
  | cons inp rest ih =>
    intro seen
    rw [seenAfterRun, allDelivered, ih, (pollCore_spec inp.2 inp.1 seen).1,
      List.append_assoc]

theorem seenAfterRun_subset (polls : List PollInput) (seen : List String) :
    seen ⊆ seenAfterRun seen polls := by
  rw [seenAfterRun_eq]
  exact List.subset_append_left _ _

theorem seenAfterRun_nodup :
    ∀ (polls : List PollInput) (seen : List String),
      seen.Nodup → (seenAfterRun seen polls).Nodup := by
  intro polls
  induction polls with
  | nil => intro seen h; simpa [seenAfterRun] using h
  | cons inp rest ih =>
    intro seen h
    rw [seenAfterRun]
    exact ih _ (pollCore_nodup inp.2 inp.1 seen h)

theorem pollCore_mem_seen (fetch : String → Option Dict) (x : String) :
    ∀ (ids seen : List String), x ∈ ids → (fetch x).isSome = true →
      x ∈ (pollCore fetch seen ids).2 := by
  intro ids
  induction ids with
  | nil => intro seen h _; simp at h
  | cons pid rest ih =>
    intro seen hmem hsome
    have hsub : seen ⊆ (pollCore fetch seen (pid :: rest)).2 := by
      rw [(pollCore_spec fetch (pid :: rest) seen).1]
      exact List.subset_append_left _ _
    rcases List.mem_cons.mp hmem with heq | hrest
    · subst heq
      by_cases hs : seen.contains x
      · exact hsub ((containsS_iff seen x).mp hs)
      · rcases hf : fetch x with _ | p
        · rw [hf] at hsome
          simp at hsome
        · rw [pollCore, if_neg hs, hf]
          have : x ∈ seen ++ [x] := List.mem_append_right _ (by simp)
          rw [(pollCore_spec fetch rest (seen ++ [x])).1]
          exact List.mem_append_left _ this
    · by_cases hs : seen.contains pid
      · rw [pollCore, if_pos hs]
        exact ih seen hrest hsome
      · rcases hf : fetch pid with _ | p
        · rw [pollCore, if_neg hs, hf]
          exact ih seen hrest hsome
        · rw [pollCore, if_neg hs, hf]
          have := ih (seen ++ [pid]) hrest hsome
          rw [(pollCore_spec fetch rest (seen ++ [pid])).1] at this ⊢
          exact this

theorem mem_seenAfterRun_of_success (id : String) :
    ∀ (polls : List PollInput) (seen : List String),
      (∃ inp ∈ polls, id ∈ inp.1 ∧ (inp.2 id).isSome = true) →
      id ∈ seenAfterRun seen polls := by
  intro polls
  induction polls with
  | nil =>
    intro seen h
    obtain ⟨inp, hin, _⟩ := h
    simp at hin
  | cons p rest ih =>
    intro seen h
    obtain ⟨inp, hin, hmem, hsome⟩ := h
    rw [seenAfterRun]
    rcases List.mem_cons.mp hin with heq | hin'
    · subst heq
      exact seenAfterRun_subset rest _ (pollCore_mem_seen inp.2 id inp.1 seen hmem hsome)
    · exact ih _ ⟨inp, hin', hmem, hsome⟩

/-- Claim C7: over any sequence of polls starting from the empty seen
set, each `proof_id` is delivered at most once, and exactly once when
some poll lists it with a successful fetch; a poll delivers exactly the
fetched documents of the freshly seen identifiers, each delivered
identifier was unseen with a successful fetch and is then added to the
seen set, and an identifier whose fetch fails is left outside the seen
set. -/
theorem watcher_delivers_once (polls : List PollInput) (id : String) :
    (allDelivered [] polls).count id ≤ 1 ∧
    ((∃ inp ∈ polls, id ∈ inp.1 ∧ (inp.2 id).isSome = true) →
      (allDelivered [] polls).count id = 1) ∧
    (∀ (fetch : String → Option Dict) (seen ids : List String),
      (pollCore fetch seen ids).1 =
        (newIdsCore fetch seen ids).map (fun i => (fetch i).getD []) ∧
      (pollCore fetch seen ids).2 = seen ++ newIdsCore fetch seen ids) ∧
    (∀ (fetch : String → Option Dict) (seen ids : List String),
      id ∈ newIdsCore fetch seen ids → id ∉ seen ∧ (fetch id).isSome = true) ∧
    (∀ (fetch : String → Option Dict) (seen ids : List String),
      fetch id = none → (id ∈ (pollCore fetch seen ids).2 ↔ id ∈ seen)) := by
  have hA : seenAfterRun [] polls = allDelivered [] polls := by
    rw [seenAfterRun_eq]
    rfl
  have hnd : (allDelivered [] polls).Nodup := by
    rw [← hA]
    exact seenAfterRun_nodup polls [] List.nodup_nil
  refine ⟨List.nodup_iff_count_le_one.mp hnd id, ?_, ?_, ?_, ?_⟩
  · intro hex
    have hm : id ∈ allDelivered [] polls := by
      rw [← hA]
      exact mem_seenAfterRun_of_success id polls [] hex
    exact List.count_eq_one_of_mem hnd hm
  · intro fetch seen ids
    exact ⟨(pollCore_spec fetch ids seen).2, (pollCore_spec fetch ids seen).1⟩
  · intro fetch seen ids h
    exact newIdsCore_fresh fetch id ids seen h
  · intro fetch seen ids hnone
    rw [(pollCore_spec fetch ids seen).1]
    constructor
    · intro hm
      rcases List.mem_append.mp hm with hm | hm
      · exact hm
      · have := (newIdsCore_fresh fetch id ids seen hm).2
        rw [hnone] at this
        simp at this
    · exact fun hm => List.mem_append_left _ hm

/-- Claim C7, witness: one poll listing one identifier with a successful
fetch delivers it exactly once. -/
theorem watcher_delivers_once_witness :
    (allDelivered [] [(["a"], fun _ => some [])]).count "a" = 1 :=
  (watcher_delivers_once [(["a"], fun _ => some [])] "a").2.1
    ⟨(["a"], fun _ => some []), by simp, by simp, rfl⟩

/-- Claim C6: each `open_new_epoch` increments the epoch number by one —
so across a run the numbers 1, 2, 3, … strictly increase — and derives
`epoch_id` as `epoch-` plus the four-digit zero-padded number and `name`
as the NATO letter at `epoch_number mod 26`; the first epoch opened is
`epoch-0001` named `Bravo`. -/
theorem epoch_numbering :
    (∀ k, epochNumberAfter (k + 1) = epochNumberAfter k + 1) ∧
    (∀ i j, i < j → epochNumberAfter i < epochNumberAfter j) ∧
    (∀ k, (open_next (epochNumberAfter k)).2.1 = epochIdOf (k + 1) ∧
          (open_next (epochNumberAfter k)).2.2 = natoAlphabet.getD ((k + 1) % 26) "") ∧
    open_next 0 = (1, "epoch-0001", "Bravo") := by
  have hval : ∀ k, epochNumberAfter k = k := by
    intro k
    induction k with
    | zero => rfl
    | succ m ih => simp [epochNumberAfter, open_next, ih]
  refine ⟨?_, ?_, ?_, ?_⟩
  · intro k
    simp [epochNumberAfter, open_next]
  · intro i j h
    rw [hval, hval]
    exact h
  · intro k
    rw [hval]
    exact ⟨rfl, rfl⟩
  · decide

/-- Claim C6, witness at a concrete pair of run positions. -/
theorem epoch_numbering_witness : epochNumberAfter 0 < epochNumberAfter 2 :=
  epoch_numbering.2.1 0 2 (by decide)

theorem format2f_zero : format2f 0 = "0.00" := by
  norm_num [format2f, roundCents, pad2]
  rfl

theorem dictGet_cons (a : String) (b : Json) (t : Dict) (k : String) :
    dictGet ((a, b) :: t) k = if (a == k) = true then some b else dictGet t k := by
  by_cases h : (a == k) = true <;> simp [dictGet, List.find?, h]

theorem dictGet_mapset_ne (k' k : String) (v : Json) (hne : k' ≠ k) :
    ∀ d : Dict,
      dictGet (d.map (fun p => if (p.1 == k') = true then (k', v) else p)) k = dictGet d k := by
  intro d
  induction d with
  | nil => rfl
  | cons p t ih =>
    rcases p with ⟨a, b⟩
    rw [List.map_cons]
    by_cases ha : a = k'
    · subst ha
      simp only [beq_self_eq_true, if_true]
      rw [dictGet_cons, dictGet_cons, ih]
      have hak : (a == k) = false := beq_eq_false_iff_ne.mpr hne
      rw [if_neg (by simp [hak]), if_neg (by simp [hak])]
    · have hb : (a == k') = false := beq_eq_false_iff_ne.mpr ha
      simp only [hb, Bool.false_eq_true, if_false]
      rw [dictGet_cons, dictGet_cons, ih]

theorem dictGet_mapset_self (k : String) (v : Json) :
    ∀ d : Dict, (dictGet d k).isSome = true →
      dictGet (d.map (fun p => if (p.1 == k) = true then (k, v) else p)) k = some v := by
  intro d
  induction d with
  | nil => intro h; simp [dictGet] at h
  | cons p t ih =>
    intro h
    rcases p with ⟨a, b⟩
    rw [List.map_cons]
    by_cases ha : (a == k) = true
    · simp only [ha, if_true]
      rw [dictGet_cons, if_pos (beq_self_eq_true k)]
    · simp only [ha, Bool.false_eq_true, if_false]
      rw [dictGet_cons, if_neg (by simp [ha])]
      apply ih
      rw [dictGet_cons, if_neg (by simp [ha])] at h
      exact h

theorem dictGet_append_single_self (k : String) (v : Json) :
    ∀ d : Dict, dictGet d k = none → dictGet (d ++ [(k, v)]) k = some v := by
  intro d
  induction d with
  | nil => intro _; simp [dictGet, List.find?]
  | cons p t ih =>
    intro h
    rcases p with ⟨a, b⟩
    rw [List.cons_append, dictGet_cons]
    rw [dictGet_cons] at h
    by_cases ha : (a == k) = true
    · rw [if_pos ha] at h
      exact Option.noConfusion h
    · rw [if_neg ha] at h
      rw [if_neg ha]
      exact ih h

theorem dictGet_append_single_ne (k' k : String) (v : Json) (hne : k' ≠ k) :
    ∀ d : Dict, dictGet (d ++ [(k', v)]) k = dictGet d k := by
  intro d
  induction d with
  | nil => simp [dictGet, List.find?, beq_eq_false_iff_ne.mpr hne]
  | cons p t ih =>
    rcases p with ⟨a, b⟩
    rw [List.cons_append, dictGet_cons, dictGet_cons, ih]

/-- Resolving a key against a Python dict update `{**d, k': v}`. -/
theorem dictGet_dictSet (d : Dict) (k' k : String) (v : Json) :
    dictGet (dictSet d k' v) k = if k' = k then some v else dictGet d k := by
  unfold dictSet
  by_cases hk : k' = k
  · subst hk
    rw [if_pos rfl]
    by_cases hf : (d.find? (fun p => p.1 == k')).isSome
    · rw [if_pos hf]
      apply dictGet_mapset_self
      simpa [dictGet, Option.isSome_map] using hf
    · rw [if_neg hf]
      apply dictGet_append_single_self
      rcases h : d.find? (fun p => p.1 == k') with _ | p
      · simp [dictGet, h]
      · rw [h] at hf
        simp at hf
  · rw [if_neg hk]
    by_cases hf : (d.find? (fun p => p.1 == k')).isSome
    · rw [if_pos hf]
      exact dictGet_mapset_ne k' k v hk d
    · rw [if_neg hf]
      exact dictGet_append_single_ne k' k v hk d

theorem dictGet_removeSig_sig : ∀ d : Dict, dictGet (removeSig d) "sig" = none := by
  intro d
  induction d with
  | nil => rfl
  | cons p t ih =>
    rcases p with ⟨a, b⟩
    rw [removeSig, List.filter_cons]
    by_cases ha : a = "sig"
    · rw [if_neg (by simp [ha])]
      exact ih
    · rw [if_pos (by simp [ha]), dictGet_cons, if_neg (by simp [ha])]
      exact ih

theorem dictGet_removeSig_ne (k : String) (hk : k ≠ "sig") :
    ∀ d : Dict, dictGet (removeSig d) k = dictGet d k := by
  intro d
  induction d with
  | nil => rfl
  | cons p t ih =>
    rcases p with ⟨a, b⟩
    rw [removeSig, List.filter_cons, dictGet_cons]
    by_cases ha : a = "sig"
    · have hak : (a == k) = false :=
        beq_eq_false_iff_ne.mpr (by rw [ha]; exact fun h => hk h.symm)
      rw [if_neg (by simp [ha]), if_neg (by simp [hak])]
      exact ih
    · rw [if_pos (by simp [ha]), dictGet_cons]
      by_cases hak : (a == k) = true
      · rw [if_pos hak, if_pos hak]
      · rw [if_neg hak, if_neg hak]
        exact ih

theorem dictGet_sign_and_addM (r : ℚ → String) (sign : String → String) (u : Dict)
    (k : String) :
    dictGet (sign_and_addM r sign u) k =
      if "sig" = k then some (.str (normalize0x (sign_snapshotM r sign u)))
      else dictGet u k := by
  unfold sign_and_addM
  exact dictGet_dictSet u "sig" k _

/-- Claim C9: sealing an epoch whose accumulator is empty yields a
document with status `sealed`, zero job and proof counts, total volume
`"0.00"`, the all-zero Merkle root, an empty proofs list, and settlements
with zero total volume and zero providers. -/
theorem seal_empty_epoch (K : ByteL → ByteL) (sign : String → String) (r : ℚ → String)
    (cfg : MConfig) (n : Nat) (ts now : Int) :
    ∃ d, seal_current_epochE K sign r cfg now
        (sign_and_addM r sign (openEpochDoc cfg n ts)) [] = .ok d ∧
      dictGet d "status" = some (.str "sealed") ∧
      dictGet d "jobs_count" = some (.num 0) ∧
      dictGet d "proofs_count" = some (.num 0) ∧
      dictGet d "total_volume_usdc" = some (.str "0.00") ∧
      dictGet d "merkle_root" = some (.str zeros64) ∧
      dictGet d "proofs" = some (.arr []) ∧
      dictGet d "settlements" = some (settlementsToJson
        { total_volume := 0, provider_pool := 0, network_ops := 0,
          providers := [], provider_count := 0 }) := by
  refine ⟨sealedDocOf r sign (sign_and_addM r sign (openEpochDoc cfg n ts)) []
      (emptySettle cfg) zeros64 now, rfl, ?_, ?_, ?_, ?_, ?_, ?_, ?_⟩ <;>
    simp [sealedDocOf, dictGet_sign_and_addM, dictGet_removeSig_ne, dictSets,
      dictGet_dictSet, emptySettle, settlementsToJson, proofCidsOf, format2f_zero,
      zero_mul]

theorem skrList_eq_map : ∀ l : List Json, skrList l = l.map sort_keys_recursive
  | [] => rfl
  | j :: rest => by rw [skrList, skrList_eq_map rest, List.map_cons]

theorem skrFields_eq_map : ∀ l : List (String × Json),
    skrFields l = l.map (fun p => (p.1, sort_keys_recursive p.2))
  | [] => rfl
  | (k, v) :: rest => by rw [skrFields, skrFields_eq_map rest, List.map_cons]

theorem sortByKey_pairwise (l : List (String × Json)) :
    List.Pairwise (fun p q => keyLeb p q = true) (sortByKey l) :=
  sortBy_pairwise keyLeb (fun p q => strLeb_total p.1 q.1)
    (fun p q s => strLeb_trans p.1 q.1 s.1) l

theorem sortByKey_idem (l : List (String × Json)) :
    sortByKey (sortByKey l) = sortByKey l :=
  sortBy_of_pairwise keyLeb _ (sortByKey_pairwise l)

theorem skrFields_sortByKey (l : List (String × Json)) :
    skrFields (sortByKey l) = sortByKey (skrFields l) := by
  rw [skrFields_eq_map, skrFields_eq_map]
  exact (sortBy_map_comm keyLeb keyLeb (fun p => (p.1, sort_keys_recursive p.2))
    (fun a b => rfl) l).symm

mutual

theorem skr_idem : ∀ j : Json,
    sort_keys_recursive (sort_keys_recursive j) = sort_keys_recursive j
  | .null => rfl
  | .bool b => rfl
  | .num q => rfl
  | .str s => rfl
  | .arr l => by
    simp only [sort_keys_recursive]
    rw [skrList_sq l]
  | .obj l => by
    simp only [sort_keys_recursive]
    rw [skrFields_sortByKey, skrFields_sq l, sortByKey_idem]

theorem skrList_sq : ∀ l : List Json, skrList (skrList l) = skrList l
  | [] => rfl
  | j :: rest => by
    simp only [skrList]
    rw [skr_idem j, skrList_sq rest]

theorem skrFields_sq : ∀ l : List (String × Json),
    skrFields (skrFields l) = skrFields l
  | [] => rfl
  | (k, v) :: rest => by
    simp only [skrFields]
    rw [skr_idem v, skrFields_sq rest]

end

/-- With `sort_keys=True`, serializing a document equals serializing its
recursively key-sorted form: `json.dumps(d, sort_keys=True)` and
`canonical_json(d)` produce the same bytes. -/
theorem pyDumpsSorted_canonical (r : ℚ → String) (j : Json) :
    pyDumpsSorted r j = canonical_json r j := by
  unfold canonical_json pyDumpsSorted
  rw [skr_idem]

theorem removeSig_cons (a : String) (b : Json) (t : Dict) :
    removeSig ((a, b) :: t) = if a = "sig" then removeSig t else (a, b) :: removeSig t := by
  unfold removeSig
  rw [List.filter_cons]
  by_cases ha : a = "sig"
  · rw [if_pos ha, if_neg (by simp [ha])]
  · rw [if_neg ha, if_pos (by simp [ha])]

theorem removeSig_idem : ∀ d : Dict, removeSig (removeSig d) = removeSig d := by
  intro d
  induction d with
  | nil => rfl
  | cons p t ih =>
    rcases p with ⟨a, b⟩
    rw [removeSig_cons]
    by_cases ha : a = "sig"
    · rw [if_pos ha]
      exact ih
    · rw [if_neg ha, removeSig_cons, if_neg ha, ih]

theorem removeSig_mapset (v : Json) : ∀ d : Dict,
    removeSig (d.map (fun p => if (p.1 == "sig") = true then ("sig", v) else p)) =
      removeSig d := by
  intro d
  induction d with
  | nil => rfl
  | cons p t ih =>
    rcases p with ⟨a, b⟩
    rw [List.map_cons]
    by_cases ha : a = "sig"
    · subst ha
      simp only [beq_self_eq_true, if_true]
      rw [removeSig_cons, removeSig_cons, if_pos rfl, if_pos rfl]
      exact ih
    · have hb : (a == "sig") = false := beq_eq_false_iff_ne.mpr ha
      simp only [hb, Bool.false_eq_true, if_false]
      rw [removeSig_cons, removeSig_cons, if_neg ha, if_neg ha, ih]

theorem removeSig_append_sig (v : Json) : ∀ d : Dict,
    removeSig (d ++ [("sig", v)]) = removeSig d := by
  intro d
  induction d with
  | nil => simp [removeSig]
  | cons p t ih =>
    rcases p with ⟨a, b⟩
    rw [List.cons_append, removeSig_cons, removeSig_cons, ih]

theorem removeSig_sign_and_addM (r : ℚ → String) (sign : String → String) (u : Dict) :
    removeSig (sign_and_addM r sign u) = removeSig u := by
  unfold sign_and_addM dictSet
  by_cases hf : (u.find? (fun p => p.1 == "sig")).isSome
  · rw [if_pos hf]
    exact removeSig_mapset _ u
  · rw [if_neg hf]
    exact removeSig_append_sig _ u

theorem seal_ok_inv (K : ByteL → ByteL) (sign : String → String) (r : ℚ → String)
    (cfg : MConfig) (now : Int) (cur : Dict) (acc : List AccItem) (d : Dict)
    (h : seal_current_epochE K sign r cfg now cur acc = .ok d) :
    ∃ S mr, computeSettlementsE cfg acc = .ok S ∧
      d = sealedDocOf r sign cur acc S mr now := by
  rcases hS : computeSettlementsE cfg acc with e | S
  · unfold seal_current_epochE at h
    rw [hS, exceptBind_err] at h
    exact Except.noConfusion h
  · unfold seal_current_epochE at h
    rw [hS, exceptBind_ok] at h
    by_cases hemp : (proofCidsOf acc).isEmpty
    · rw [if_pos hemp] at h
      rw [exceptPure, exceptBind_ok] at h
      exact ⟨S, zeros64, rfl, (Except.ok.inj h).symm⟩
    · rw [if_neg hemp] at h
      rcases hm : compute_merkle_rootE K (proofCidsOf acc) with _ | m
      · rw [hm] at h
        exact Except.noConfusion h
      · rw [hm] at h
        exact ⟨S, m, rfl, (Except.ok.inj h).symm⟩

/-- Claim C5 (amended): a sealed publish stores the document at
`/swarmledger/epochs/{id}.json` with status `sealed` and a `sig` that is
exactly the signature of the canonical form of the document with `sig`
removed; the published bytes are byte-identical to `canonical_json` of
the *signed* document — which differs from the canonical form over which
`sig` was computed by precisely the `sig` entry. -/
theorem seal_publish_canonical (K : ByteL → ByteL) (sign : String → String)
    (r : ℚ → String) (cfg : MConfig) (now : Int) (cur : Dict) (acc : List AccItem)
    (d : Dict) (hok : seal_current_epochE K sign r cfg now cur acc = .ok d) :
    dictGet d "status" = some (.str "sealed") ∧
    dictGet d "sig" = some (.str (normalize0x (sign (canonical_json r
      (.obj (removeSig d)))))) ∧
    (publish_epochB r d).1 = canonical_json r (.obj d) ∧
    (∀ id, dictGet d "epoch_id" = some (.str id) →
      (publish_epochB r d).2 = "/swarmledger/epochs/" ++ id ++ ".json") := by
  obtain ⟨S, mr, hS, hd⟩ := seal_ok_inv K sign r cfg now cur acc d hok
  subst hd
  refine ⟨?_, ?_, ?_, ?_⟩
  · simp [sealedDocOf, dictGet_sign_and_addM, dictGet_removeSig_ne, dictSets,
      dictGet_dictSet]
  · unfold sealedDocOf
    rw [dictGet_sign_and_addM, if_pos rfl]
    unfold sign_snapshotM
    rw [removeSig_sign_and_addM, removeSig_idem]
  · unfold publish_epochB publish_snapshotB
    exact pyDumpsSorted_canonical r _
  · intro id hid
    unfold publish_epochB publish_snapshotB
    unfold dictGetD
    rw [hid]
    rfl

/-- Claim C5, witness: the published bytes of a concrete sealed epoch
coincide with the canonical serialization of the signed document. -/
theorem seal_publish_canonical_witness :
    (publish_epochB r0 dEx).1 = canonical_json r0 (.obj dEx) :=
  (seal_publish_canonical K0 sign0 r0 cfg0 7
    (sign_and_addM r0 sign0 (openEpochDoc cfg0 1 5)) [] dEx rfl).2.2.1

set_option maxRecDepth 100000 in
set_option maxHeartbeats 4000000 in
/-- Claim C5, counterexample: for a concrete sealed epoch the published
bytes are *not* byte-identical to the canonical form over which `sig` was
computed (the canonical JSON of the document with `sig` removed) — the
published serialization contains the `sig` entry. -/
theorem seal_publish_canonical_cex :
    seal_current_epochE K0 sign0 r0 cfg0 7
        (sign_and_addM r0 sign0 (openEpochDoc cfg0 1 5)) [] = .ok dEx ∧
    (publish_epochB r0 dEx).1 ≠ canonical_json r0 (.obj (removeSig dEx)) := by
  constructor
  · rfl
  · decide

end Merlin
